import Mathlib

/-!
Verification of the STM32 data-logger firmware (STM32F103 temperature logger).

The repository contains three firmware variants: two in `part_000`
(an STM32RTC variant and an RTClock variant) and one in `part_001`
(the four-channel variant with the extended radio protocol).
This file embeds the scheduling, storage and radio-protocol logic of
those sources as Lean functions and proves the specified properties.

Strings of the C source (file names, CSV lines) are modelled as lists of
byte values (`Str`); `strcmp` is the C string comparison on them.
-/

namespace STM32Logger

/-- A C string as the list of its byte values (no interior NUL bytes). -/
abbrev Str := List Nat

/-- Byte value of the comma separator used in the CSV record lines. -/
def commaB : Nat := 44

/-- Byte list of a Lean string literal (ASCII code points). -/
def ofStr (s : String) : Str := s.data.map Char.toNat

/-- C `strcmp` on byte lists: negative/zero/positive sign as an `Int`.
The end of the list plays the role of the NUL terminator. -/
def strcmp : Str → Str → Int
  | [], [] => 0
  | [], _ :: _ => -1
  | _ :: _, [] => 1
  | a :: as, b :: bs =>
    if a < b then -1 else if b < a then 1 else strcmp as bs

/-- The (non-strict) file-name order used by the retention sort. -/
def Rle (a b : Str) : Prop := strcmp a b ≤ 0

instance : DecidableRel Rle := fun a b => inferInstanceAs (Decidable (strcmp a b ≤ 0))

theorem strcmp_self (a : Str) : strcmp a a = 0 := by
  induction a with
  | nil => rfl
  | cons x xs ih => simp [strcmp, ih]

theorem strcmp_swap (a b : Str) : strcmp a b = -strcmp b a := by
  induction a generalizing b with
  | nil => cases b <;> rfl
  | cons x xs ih =>
    cases b with
    | nil => rfl
    | cons y ys =>
      by_cases hxy : x < y
      · have : ¬ y < x := by omega
        simp [strcmp, hxy, this]
      · by_cases hyx : y < x
        · simp [strcmp, hxy, hyx]
        · simp [strcmp, hxy, hyx, ih]

theorem strcmp_eq_zero_iff (a b : Str) : strcmp a b = 0 ↔ a = b := by
  induction a generalizing b with
  | nil => cases b <;> simp [strcmp]
  | cons x xs ih =>
    cases b with
    | nil => simp [strcmp]
    | cons y ys =>
      by_cases hxy : x < y
      · simp [strcmp, hxy]; omega
      · by_cases hyx : y < x
        · simp [strcmp, hxy, hyx]; omega
        · have hxy' : x = y := by omega
          simp [strcmp, hxy, hyx, ih, hxy']

theorem Rle_refl (a : Str) : Rle a a := by
  simp [Rle, strcmp_self]

theorem Rle_trans {a b c : Str} (h1 : Rle a b) (h2 : Rle b c) : Rle a c := by
  induction a generalizing b c with
  | nil =>
    cases c with
    | nil => exact le_refl 0
    | cons z zs => simp [Rle, strcmp]
  | cons x xs ih =>
    cases b with
    | nil => simp [Rle, strcmp] at h1
    | cons y ys =>
      cases c with
      | nil => simp [Rle, strcmp] at h2
      | cons z zs =>
        simp only [Rle, strcmp] at h1 h2 ⊢
        by_cases hxy : x < y
        · -- x < y ≤ z
          have hyz : ¬ z < y := by
            by_contra hzy
            simp [hzy, show ¬ y < z by omega] at h2
          by_cases hyz' : y < z
          · have : x < z := by omega
            simp [this]
          · have hyz2 : y = z := by omega
            have : x < z := by omega
            simp [this]
        · by_cases hyx : y < x
          · simp [hxy, hyx] at h1
          · have hxy' : x = y := by omega
            subst hxy'
            by_cases hxz : x < z
            · simp [hxz]
            · by_cases hzx : z < x
              · simp [show ¬ x < z by omega, hzx] at h2 ⊢
              · have hxz' : x = z := by omega
                simp [hxy, hyx] at h1
                simp [hxz, hzx] at h2 ⊢
                exact ih h1 h2

theorem Rle_antisymm {a b : Str} (h1 : Rle a b) (h2 : Rle b a) : a = b := by
  have hs := strcmp_swap a b
  have : strcmp a b = 0 := by
    simp only [Rle] at h1 h2
    omega
  exact (strcmp_eq_zero_iff a b).mp this

theorem Rle_of_pos {a b : Str} (h : 0 < strcmp a b) : Rle b a := by
  have hs := strcmp_swap a b
  simp only [Rle]
  omega

theorem Rle_of_not_pos {a b : Str} (h : ¬ 0 < strcmp a b) : Rle a b := by
  simp only [Rle]; omega

instance : IsTrans Str Rle := ⟨fun _ _ _ => Rle_trans⟩
instance : IsAntisymm Str Rle := ⟨fun _ _ => Rle_antisymm⟩

/-!
## The retention sort (`cleanupOldFiles`, both sources)

The C code sorts the collected file names with
```
for (int i = 0; i < fileCount - 1; i++)
  for (int j = 0; j < fileCount - i - 1; j++)
    if (strcmp(fileNames[j], fileNames[j + 1]) > 0) swap(j, j+1);
```
`sweep k` is one execution of the inner loop with bound `k`
(comparisons at positions (0,1) … (k-1,k)); `bubbleIter` runs the
outer loop, whose inner bound shrinks from `n-1` down to `1`.
-/

/-- One inner-loop sweep of the bubble sort with `k` adjacent comparisons. -/
def sweep : Nat → List Str → List Str
  | 0, l => l
  | _ + 1, [] => []
  | _ + 1, [a] => [a]
  | k + 1, a :: b :: rest =>
    if 0 < strcmp a b then b :: sweep k (a :: rest) else a :: sweep k (b :: rest)

/-- The outer loop of the bubble sort: sweeps with bounds `k`, `k-1`, …, `1`. -/
def bubbleIter : Nat → List Str → List Str
  | 0, l => l
  | k + 1, l => bubbleIter k (sweep (k + 1) l)

/-- The in-place bubble sort of `cleanupOldFiles`. -/
def bubbleSort (l : List Str) : List Str := bubbleIter (l.length - 1) l

theorem sweep_perm (k : Nat) (l : List Str) : List.Perm (sweep k l) l := by
  induction k generalizing l with
  | zero => simp [sweep]
  | succ k ih =>
    match l with
    | [] => simp [sweep]
    | [a] => simp [sweep]
    | a :: b :: rest =>
      by_cases h : 0 < strcmp a b
      · simp only [sweep, if_pos h]
        exact ((ih (a :: rest)).cons b).trans (List.Perm.swap a b rest)
      · simp only [sweep, if_neg h]
        exact List.Perm.cons a (ih (b :: rest))

theorem sweep_length (k : Nat) (l : List Str) : (sweep k l).length = l.length :=
  (sweep_perm k l).length_eq

theorem sweep_drop (k : Nat) (l : List Str) :
    (sweep k l).drop (k + 1) = l.drop (k + 1) := by
  induction k generalizing l with
  | zero =>
    simp [sweep]
  | succ k ih =>
    match l with
    | [] => simp [sweep]
    | [a] => simp [sweep]
    | a :: b :: rest =>
      by_cases h : 0 < strcmp a b
      · simp only [sweep, if_pos h, List.drop_succ_cons]
        exact ih (a :: rest)
      · simp only [sweep, if_neg h, List.drop_succ_cons]
        exact ih (b :: rest)

theorem sweep_take_perm (k : Nat) (l : List Str) :
    List.Perm ((sweep k l).take (k + 1)) (l.take (k + 1)) := by
  have hp : List.Perm ((sweep k l).take (k + 1) ++ (sweep k l).drop (k + 1))
      (l.take (k + 1) ++ l.drop (k + 1)) := by
    rw [List.take_append_drop, List.take_append_drop]
    exact sweep_perm k l
  rw [sweep_drop k l] at hp
  exact (List.perm_append_right_iff _).mp hp

/-- After a sweep with bound `k`, the element left at position `k` is an
upper bound of the first `k + 1` elements of the original list (and is one
of those elements). -/
theorem sweep_bound (k : Nat) (l : List Str) (hk : k < l.length) :
    ∃ y, (sweep k l).drop k = y :: l.drop (k + 1) ∧
      y ∈ l.take (k + 1) ∧ ∀ x ∈ l.take (k + 1), Rle x y := by
  induction k generalizing l with
  | zero =>
    cases l with
    | nil => simp at hk
    | cons a t =>
      refine ⟨a, by simp [sweep], by simp, ?_⟩
      intro x hx
      simp [List.take_succ_cons] at hx
      subst hx
      exact Rle_refl _
  | succ k ih =>
    cases l with
    | nil => simp at hk
    | cons a l' =>
      cases l' with
      | nil => simp at hk
      | cons b rest =>
        have hk' : k < (a :: rest).length := by
          simp at hk ⊢; omega
        have hk'' : k < (b :: rest).length := by
          simp at hk ⊢; omega
        by_cases h : 0 < strcmp a b
        · obtain ⟨y, hdrop, hmem, hbound⟩ := ih (a :: rest) hk'
          refine ⟨y, ?_, ?_, ?_⟩
          · simp only [sweep, if_pos h, List.drop_succ_cons]
            rw [hdrop]
            simp
          · simp only [List.take_succ_cons, List.mem_cons] at hmem ⊢
            tauto
          · intro x hx
            simp only [List.take_succ_cons, List.mem_cons] at hx
            rcases hx with rfl | rfl | hx
            · exact hbound x (by simp [List.take_succ_cons])
            · exact Rle_trans (Rle_of_pos h) (hbound a (by simp [List.take_succ_cons]))
            · exact hbound x (by simp [List.take_succ_cons]; right; exact hx)
        · obtain ⟨y, hdrop, hmem, hbound⟩ := ih (b :: rest) hk''
          refine ⟨y, ?_, ?_, ?_⟩
          · simp only [sweep, if_neg h, List.drop_succ_cons]
            rw [hdrop]
            simp
          · simp only [List.take_succ_cons, List.mem_cons] at hmem ⊢
            tauto
          · intro x hx
            simp only [List.take_succ_cons, List.mem_cons] at hx
            rcases hx with rfl | rfl | hx
            · exact Rle_trans (Rle_of_not_pos h) (hbound b (by simp [List.take_succ_cons]))
            · exact hbound x (by simp [List.take_succ_cons])
            · exact hbound x (by simp [List.take_succ_cons]; right; exact hx)

/-- Invariant of the outer loop: the suffix beyond position `k` is sorted and
dominates the prefix. -/
def BubbleInv (k : Nat) (l : List Str) : Prop :=
  (l.drop k).Pairwise Rle ∧ ∀ x ∈ l.take k, ∀ y ∈ l.drop k, Rle x y

theorem bubbleInv_step (k : Nat) (l : List Str) (h : BubbleInv (k + 2) l) :
    BubbleInv (k + 1) (sweep (k + 1) l) := by
  by_cases hlen : l.length ≤ k + 1
  · constructor
    · rw [List.drop_eq_nil_of_le (by rw [sweep_length]; omega)]
      exact List.Pairwise.nil
    · intro x _ y hy
      rw [List.drop_eq_nil_of_le (by rw [sweep_length]; omega)] at hy
      simp at hy
  · have hk : k + 1 < l.length := by omega
    obtain ⟨y, hdrop, hymem, hbound⟩ := sweep_bound (k + 1) l hk
    constructor
    · rw [hdrop]
      refine List.Pairwise.cons ?_ h.1
      intro z hz
      exact h.2 y hymem z hz
    · intro x hx y' hy'
      have hx2 : x ∈ l.take (k + 2) := by
        have hsub : (sweep (k + 1) l).take (k + 1) ⊆ (sweep (k + 1) l).take (k + 2) := by
          intro a ha
          have heq : (sweep (k + 1) l).take (k + 1) =
              ((sweep (k + 1) l).take (k + 2)).take (k + 1) := by
            rw [List.take_take, Nat.min_def]
            simp
          rw [heq] at ha
          exact List.take_subset _ _ ha
        exact (sweep_take_perm (k + 1) l).mem_iff.mp (hsub hx)
      rw [hdrop] at hy'
      rcases List.mem_cons.mp hy' with rfl | hy'
      · exact hbound x hx2
      · exact h.2 x hx2 y' hy'

theorem bubbleIter_pairwise (k : Nat) (l : List Str) (h : BubbleInv (k + 1) l) :
    (bubbleIter k l).Pairwise Rle := by
  induction k generalizing l with
  | zero =>
    match l with
    | [] => exact List.Pairwise.nil
    | a :: rest =>
      refine List.Pairwise.cons ?_ ?_
      · intro y hy
        exact h.2 a (by simp) y (by simpa using hy)
      · simpa using h.1
  | succ k ih =>
    exact ih (sweep (k + 1) l) (bubbleInv_step k l h)

theorem bubbleIter_perm (k : Nat) (l : List Str) : List.Perm (bubbleIter k l) l := by
  induction k generalizing l with
  | zero => simp [bubbleIter]
  | succ k ih =>
    exact (ih (sweep (k + 1) l)).trans (sweep_perm (k + 1) l)

theorem bubbleSort_pairwise (l : List Str) : (bubbleSort l).Pairwise Rle := by
  refine bubbleIter_pairwise (l.length - 1) l ⟨?_, ?_⟩
  · rw [List.drop_eq_nil_of_le (by omega)]
    exact List.Pairwise.nil
  · intro x _ y hy
    rw [List.drop_eq_nil_of_le (by omega)] at hy
    simp at hy

theorem bubbleSort_perm (l : List Str) : List.Perm (bubbleSort l) l :=
  bubbleIter_perm (l.length - 1) l

theorem bubbleSort_eq_self_of_pairwise (l : List Str) (h : l.Pairwise Rle) :
    bubbleSort l = l :=
  List.eq_of_perm_of_sorted (bubbleSort_perm l) (bubbleSort_pairwise l) h

/-!
## Decimal rendering and parsing

`dataFile.print(n)` on an unsigned integer writes its decimal digits;
`String::toInt` (used when streaming a file back) parses the leading
decimal digits of a field (the fields produced by this firmware carry no
sign or whitespace) and the result is truncated to the `uint16_t`
response field.
-/

/-- Digit-extraction worker with explicit fuel (the fuel keeps the
recursion structural so that the kernel can evaluate it; `n + 1` steps
always suffice since `n / 10 < n`). -/
def decAux : Nat → Nat → Str
  | 0, _ => []
  | fuel + 1, n =>
    if n < 10 then [48 + n] else decAux fuel (n / 10) ++ [48 + n % 10]

/-- Decimal digit bytes of `n`, as printed by Arduino `print` of an
unsigned integer. -/
def dec (n : Nat) : Str := decAux (n + 1) n

theorem decAux_congr (f1 : Nat) : ∀ (f2 n : Nat), n < f1 → n < f2 →
    decAux f1 n = decAux f2 n := by
  induction f1 with
  | zero => intro f2 n h1 _; omega
  | succ f1 ih =>
    intro f2 n h1 h2
    cases f2 with
    | zero => omega
    | succ f2 =>
      by_cases h : n < 10
      · simp [decAux, h]
      · simp only [decAux, if_neg h]
        rw [ih f2 (n / 10) (by omega) (by omega)]

/-- The recursion equation of `dec`. -/
theorem dec_eq (n : Nat) :
    dec n = if n < 10 then [48 + n] else dec (n / 10) ++ [48 + n % 10] := by
  show decAux (n + 1) n = _
  by_cases h : n < 10
  · simp [decAux, h]
  · simp only [decAux, if_neg h]
    rw [decAux_congr n (n / 10 + 1) (n / 10) (by omega) (by omega)]
    rfl

/-- Is `c` the byte of a decimal digit. -/
def isDigitB (c : Nat) : Bool := 48 ≤ c && c ≤ 57

/-- Accumulating value of the leading decimal digits of a field, i.e. the
core of Arduino `String::toInt` on the firmware's unsigned fields. -/
def leadNatGo (acc : Nat) : Str → Nat
  | [] => acc
  | c :: rest => if isDigitB c then leadNatGo (acc * 10 + (c - 48)) rest else acc

/-- Arduino `String::toInt` on an unsigned decimal field. -/
def leadNat (s : Str) : Nat := leadNatGo 0 s

/-- Assignment of the parsed value to a `uint16_t` response field. -/
def toU16 (s : Str) : Nat := leadNat s % 65536

theorem dec_digits (n : Nat) : ∀ c ∈ dec n, isDigitB c = true := by
  induction n using Nat.strong_induction_on with
  | _ n ih =>
    intro c hc
    rw [dec_eq] at hc
    by_cases h : n < 10
    · simp [h] at hc
      subst hc
      simp [isDigitB]
      omega
    · simp [h, List.mem_append] at hc
      rcases hc with hc | hc
      · exact ih (n / 10) (by omega) c hc
      · subst hc
        simp [isDigitB]
        omega

theorem comma_not_mem_dec (n : Nat) : commaB ∉ dec n := by
  intro h
  have := dec_digits n commaB h
  simp [isDigitB, commaB] at this

theorem dec_ne_nil (n : Nat) : dec n ≠ [] := by
  rw [dec_eq]
  by_cases h : n < 10 <;> simp [h]

theorem leadNatGo_append_digits (s t : Str) (acc : Nat)
    (hs : ∀ c ∈ s, isDigitB c = true) :
    leadNatGo acc (s ++ t) = leadNatGo (leadNatGo acc s) t := by
  induction s generalizing acc with
  | nil => simp [leadNatGo]
  | cons c rest ih =>
    have hc : isDigitB c = true := hs c (by simp)
    simp only [List.cons_append, leadNatGo, hc, if_pos]
    exact ih _ (fun c hc => hs c (by simp [hc]))

theorem leadNatGo_dec (n acc : Nat) :
    leadNatGo acc (dec n) = acc * 10 ^ (dec n).length + n := by
  induction n using Nat.strong_induction_on with
  | _ n ih =>
    rw [dec_eq]
    by_cases h : n < 10
    · simp [h, leadNatGo, isDigitB, show 48 ≤ 48 + n by omega, show 48 + n ≤ 57 by omega]
    · rw [if_neg h]
      rw [leadNatGo_append_digits _ _ _ (dec_digits (n / 10))]
      rw [ih (n / 10) (by omega)]
      have hdig : isDigitB (48 + n % 10) = true := by
        simp [isDigitB]
        omega
      simp only [leadNatGo, hdig, if_pos]
      simp [List.length_append]
      ring_nf
      omega

/-- Printing then `toInt`-parsing an unsigned value is the identity. -/
theorem leadNat_dec (n : Nat) : leadNat (dec n) = n := by
  simp [leadNat, leadNatGo_dec]

theorem toU16_dec (n : Nat) (h : n < 65536) : toU16 (dec n) = n := by
  simp [toU16, leadNat_dec]
  omega

/-!
## CSV record lines (`takeMeasurement` writes them, `sendFile` parses them)

A data line of the four-channel variant is
`index,dateTime,value0,value1,value2,value3`.  `sendFile` locates the five
commas with `String::indexOf` and cuts the fields out with
`String::substring`.
-/

/-- Position of the first comma of a byte list (`String::indexOf(',')`,
with `none` for C's `-1`). -/
def findC : Str → Option Nat
  | [] => none
  | c :: rest => if c == commaB then some 0 else (findC rest).map (· + 1)

/-- `String::indexOf(',', start)`. -/
def idxOfC (s : Str) (start : Nat) : Option Nat :=
  (findC (s.drop start)).map (· + start)

/-- `String::substring(a, b)`: the bytes from position `a` up to
(excluding) position `b`. -/
def sub (s : Str) (a b : Nat) : Str := (s.take b).drop a

/-- One measurement record of the four-channel variant: the formatted
date-time label and the four ADC readings. -/
structure Rec where
  label : Str
  v0 : Nat
  v1 : Nat
  v2 : Nat
  v3 : Nat
deriving DecidableEq

/-- The CSV line written for record `r` when the in-memory counter is
`idx` (the `dataFile.print` sequence of `takeMeasurement`). -/
def serializeLine (idx : Nat) (r : Rec) : Str :=
  dec idx ++ commaB :: (r.label ++ commaB :: (dec r.v0 ++ commaB ::
    (dec r.v1 ++ commaB :: (dec r.v2 ++ commaB :: dec r.v3))))

/-- The positions of the first five commas of a line (`idx1` … `idx5`
in `sendFile`). -/
def commas5 (line : Str) : Option (Nat × Nat × Nat × Nat × Nat) := do
  let i1 ← idxOfC line 0
  let i2 ← idxOfC line (i1 + 1)
  let i3 ← idxOfC line (i2 + 1)
  let i4 ← idxOfC line (i3 + 1)
  let i5 ← idxOfC line (i4 + 1)
  pure (i1, i2, i3, i4, i5)

/-- Parsing of one line by `sendFile`: the date-time label is the
substring between the first two commas, the channel values are the
`toInt` of the remaining fields, stored into `uint16_t` response fields.
A line with fewer than five commas would be cut at C's `-1` sentinel;
no line written by this firmware is of that shape, and no claim
exercises it, so it parses to a default record here. -/
def parseRec (line : Str) : Rec :=
  match commas5 line with
  | some (i1, i2, i3, i4, i5) =>
    { label := sub line (i1 + 1) i2
      v0 := toU16 (sub line (i2 + 1) i3)
      v1 := toU16 (sub line (i3 + 1) i4)
      v2 := toU16 (sub line (i4 + 1) i5)
      v3 := toU16 (line.drop (i5 + 1)) }
  | none => { label := [], v0 := 0, v1 := 0, v2 := 0, v3 := 0 }

theorem drop_len_add (p q : Str) (n : Nat) :
    (p ++ q).drop (p.length + n) = q.drop n := by
  induction p with
  | nil => simp
  | cons x xs ih => simpa [Nat.succ_add] using ih

theorem take_len_add (p q : Str) (n : Nat) :
    (p ++ q).take (p.length + n) = p ++ q.take n := by
  induction p with
  | nil => simp
  | cons x xs ih => simpa [Nat.succ_add] using ih

theorem findC_spec (p q : Str) (h : commaB ∉ p) :
    findC (p ++ commaB :: q) = some p.length := by
  induction p with
  | nil => simp [findC]
  | cons x xs ih =>
    have hx : (x == commaB) = false :=
      beq_eq_false_iff_ne.mpr (fun hEq => h (by simp [hEq]))
    have ih' := ih (fun hm => h (by simp [hm]))
    show findC (x :: (xs ++ commaB :: q)) = some (x :: xs).length
    simp only [findC, hx, Bool.false_eq_true, if_false, ih', List.length_cons]
    rfl

theorem idx_first (p q : Str) (h : commaB ∉ p) :
    idxOfC (p ++ commaB :: q) 0 = some p.length := by
  simp [idxOfC, findC_spec p q h]

theorem idx_field (P F R : Str) (hF : commaB ∉ F) :
    idxOfC (P ++ commaB :: (F ++ commaB :: R)) (P.length + 1) =
      some (P.length + 1 + F.length) := by
  have hdrop : (P ++ commaB :: (F ++ commaB :: R)).drop (P.length + 1) =
      F ++ commaB :: R := by
    simpa using drop_len_add P (commaB :: (F ++ commaB :: R)) 1
  simp only [idxOfC, hdrop, findC_spec F R hF]
  simp
  omega

theorem sub_field (P F R : Str) :
    sub (P ++ commaB :: (F ++ R)) (P.length + 1) (P.length + 1 + F.length) = F := by
  have h1 : (P ++ commaB :: (F ++ R)).take (P.length + 1 + F.length) =
      P ++ commaB :: F := by
    have := take_len_add P (commaB :: (F ++ R)) (1 + F.length)
    rw [show P.length + 1 + F.length = P.length + (1 + F.length) by omega, this]
    have : (F ++ R).take F.length = F := by
      simpa using take_len_add F R 0
    simp [List.take_cons, this, Nat.add_comm]
  rw [sub, h1]
  simpa using drop_len_add P (commaB :: F) 1

theorem drop_last_field (P F : Str) :
    (P ++ commaB :: F).drop (P.length + 1) = F := by
  simpa using drop_len_add P (commaB :: F) 1

theorem idx_fieldAt (P F R : Str) (s j : Nat) (hF : commaB ∉ F)
    (hs : s = P.length + 1) (hj : j = P.length + 1 + F.length) :
    idxOfC (P ++ commaB :: (F ++ commaB :: R)) s = some j := by
  subst hs
  subst hj
  exact idx_field P F R hF

theorem sub_fieldAt (P F R : Str) (s j : Nat)
    (hs : s = P.length + 1) (hj : j = P.length + 1 + F.length) :
    sub (P ++ commaB :: (F ++ R)) s j = F := by
  subst hs
  subst hj
  exact sub_field P F R

theorem drop_lastAt (P F : Str) (s : Nat) (hs : s = P.length + 1) :
    (P ++ commaB :: F).drop s = F := by
  subst hs
  exact drop_last_field P F

/-- Parsing a line made of six fields whose first five are comma-free
recovers the fields (the channel fields through `toInt`/`uint16_t`). -/
theorem parse_six (A B C0 C1 C2 C3 : Str)
    (hA : commaB ∉ A) (hB : commaB ∉ B) (h0 : commaB ∉ C0)
    (h1 : commaB ∉ C1) (h2 : commaB ∉ C2) :
    parseRec (A ++ commaB :: (B ++ commaB :: (C0 ++ commaB ::
        (C1 ++ commaB :: (C2 ++ commaB :: C3))))) =
      { label := B, v0 := toU16 C0, v1 := toU16 C1, v2 := toU16 C2,
        v3 := toU16 C3 } := by
  set L := A ++ commaB :: (B ++ commaB :: (C0 ++ commaB ::
    (C1 ++ commaB :: (C2 ++ commaB :: C3)))) with hL
  have hL3 : L = (A ++ commaB :: B) ++ commaB ::
      (C0 ++ commaB :: (C1 ++ commaB :: (C2 ++ commaB :: C3))) := by
    simp [hL, List.append_assoc]
  have hL4 : L = (A ++ commaB :: (B ++ commaB :: C0)) ++ commaB ::
      (C1 ++ commaB :: (C2 ++ commaB :: C3)) := by
    simp [hL, List.append_assoc]
  have hL5 : L = (A ++ commaB :: (B ++ commaB :: (C0 ++ commaB :: C1))) ++ commaB ::
      (C2 ++ commaB :: C3) := by
    simp [hL, List.append_assoc]
  have hL6 : L = (A ++ commaB :: (B ++ commaB :: (C0 ++ commaB ::
      (C1 ++ commaB :: C2)))) ++ commaB :: C3 := by
    simp [hL, List.append_assoc]
  have hi1 : idxOfC L 0 = some A.length := idx_first A _ hA
  have hi2 : idxOfC L (A.length + 1) = some (A.length + 1 + B.length) :=
    idx_field A B _ hB
  have hi3 : idxOfC L (A.length + 1 + B.length + 1) =
      some (A.length + 1 + B.length + 1 + C0.length) := by
    rw [hL3]
    exact idx_fieldAt _ _ _ _ _ h0 (by simp [List.length_append]; omega)
      (by simp [List.length_append]; omega)
  have hi4 : idxOfC L (A.length + 1 + B.length + 1 + C0.length + 1) =
      some (A.length + 1 + B.length + 1 + C0.length + 1 + C1.length) := by
    rw [hL4]
    exact idx_fieldAt _ _ _ _ _ h1 (by simp [List.length_append]; omega)
      (by simp [List.length_append]; omega)
  have hi5 : idxOfC L (A.length + 1 + B.length + 1 + C0.length + 1 + C1.length + 1) =
      some (A.length + 1 + B.length + 1 + C0.length + 1 + C1.length + 1 + C2.length) := by
    rw [hL5]
    exact idx_fieldAt _ _ _ _ _ h2 (by simp [List.length_append]; omega)
      (by simp [List.length_append]; omega)
  have hs1 : sub L (A.length + 1) (A.length + 1 + B.length) = B :=
    sub_fieldAt A B _ _ _ rfl rfl
  have hs2 : sub L (A.length + 1 + B.length + 1)
      (A.length + 1 + B.length + 1 + C0.length) = C0 := by
    rw [hL3]
    exact sub_fieldAt _ _ _ _ _ (by simp [List.length_append]; omega)
      (by simp [List.length_append]; omega)
  have hs3 : sub L (A.length + 1 + B.length + 1 + C0.length + 1)
      (A.length + 1 + B.length + 1 + C0.length + 1 + C1.length) = C1 := by
    rw [hL4]
    exact sub_fieldAt _ _ _ _ _ (by simp [List.length_append]; omega)
      (by simp [List.length_append]; omega)
  have hs4 : sub L (A.length + 1 + B.length + 1 + C0.length + 1 + C1.length + 1)
      (A.length + 1 + B.length + 1 + C0.length + 1 + C1.length + 1 + C2.length) = C2 := by
    rw [hL5]
    exact sub_fieldAt _ _ _ _ _ (by simp [List.length_append]; omega)
      (by simp [List.length_append]; omega)
  have hs5 : L.drop
      (A.length + 1 + B.length + 1 + C0.length + 1 + C1.length + 1 + C2.length + 1) = C3 := by
    rw [hL6]
    exact drop_lastAt _ _ _ (by simp [List.length_append]; omega)
  simp only [parseRec, commas5, hi1, Option.bind_eq_bind, Option.some_bind,
    hi2, hi3, hi4, hi5, hs1, hs2, hs3, hs4, hs5]

/-- Round trip of one record through the CSV line: writing with
`takeMeasurement`'s format and parsing with `sendFile`'s field cuts
recovers the record (channel values through the `uint16_t` fields). -/
theorem parseRec_serializeLine (idx : Nat) (r : Rec) (hB : commaB ∉ r.label) :
    parseRec (serializeLine idx r) =
      { label := r.label, v0 := r.v0 % 65536, v1 := r.v1 % 65536,
        v2 := r.v2 % 65536, v3 := r.v3 % 65536 } := by
  have := parse_six (dec idx) r.label (dec r.v0) (dec r.v1) (dec r.v2) (dec r.v3)
    (comma_not_mem_dec idx) hB (comma_not_mem_dec r.v0) (comma_not_mem_dec r.v1)
    (comma_not_mem_dec r.v2)
  rw [serializeLine, this]
  simp [toU16, leadNat_dec]

/-!
## Wall clock and `modifyRTC` / `getRTCInfo` (part_001)
-/

/-- The `DateTime` structure of the sources (full year, as kept by
`getCurrentDateTime`). -/
structure DateTime where
  year : Nat
  month : Nat
  day : Nat
  hour : Nat
  minute : Nat
  second : Nat
deriving DecidableEq

/-- The leap-year rule used by `modifyRTC` for February. -/
def isLeap (y : Nat) : Bool :=
  (y % 4 == 0 && y % 100 != 0) || y % 400 == 0

/-- `maxDays` as computed in the `RTC_KEY_DAY` branch of `modifyRTC`. -/
def maxDaysFor (month year : Nat) : Nat :=
  if month == 4 || month == 6 || month == 9 || month == 11 then 30
  else if month == 2 then (if isLeap year then 29 else 28)
  else 31

/-- RTC field keys (`RTC_KEY_MONTH` … `RTC_KEY_YEAR`). -/
def keyMonth : Nat := 1
def keyDay : Nat := 2
def keyHour : Nat := 3
def keyMinute : Nat := 4
def keySecond : Nat := 5
def keyYear : Nat := 6

/-- The field-specific range check of `modifyRTC` (false also for an
unknown key, which the code likewise rejects). -/
def rangeCheck (key value : Nat) (dt : DateTime) : Bool :=
  if key == keyMonth then 1 ≤ value && value ≤ 12
  else if key == keyDay then 1 ≤ value && value ≤ maxDaysFor dt.month dt.year
  else if key == keyHour then value < 24
  else if key == keyMinute then value < 60
  else if key == keySecond then value < 60
  else if key == keyYear then value ≤ 99
  else false

/-- `modifyRTC(key, value)`: validates the value for the field named by
`key` and, only when valid, commits the updated `DateTime` through
`setDateTime`.  Returns the `valid` flag together with the resulting
clock state. -/
def modifyRTC (key value : Nat) (dt : DateTime) : Bool × DateTime :=
  if key == keyMonth then
    if 1 ≤ value && value ≤ 12 then (true, { dt with month := value }) else (false, dt)
  else if key == keyDay then
    if 1 ≤ value && value ≤ maxDaysFor dt.month dt.year then
      (true, { dt with day := value })
    else (false, dt)
  else if key == keyHour then
    if value < 24 then (true, { dt with hour := value }) else (false, dt)
  else if key == keyMinute then
    if value < 60 then (true, { dt with minute := value }) else (false, dt)
  else if key == keySecond then
    if value < 60 then (true, { dt with second := value }) else (false, dt)
  else if key == keyYear then
    if value ≤ 99 then (true, { dt with year := 2000 + value }) else (false, dt)
  else (false, dt)

/-- `getRTCInfo(key)`: one clock field by key, `0xFF` for an unknown key. -/
def getRTCInfo (key : Nat) (dt : DateTime) : Nat :=
  if key == keyMonth then dt.month
  else if key == keyDay then dt.day
  else if key == keyHour then dt.hour
  else if key == keyMinute then dt.minute
  else if key == keySecond then dt.second
  else if key == keyYear then dt.year - 2000
  else 255

theorem modifyRTC_invalid (key value : Nat) (dt : DateTime)
    (h : rangeCheck key value dt = false) : modifyRTC key value dt = (false, dt) := by
  simp only [rangeCheck] at h
  simp only [modifyRTC]
  split_ifs at h ⊢ <;> simp_all

/-!
## Sampling configuration (`setSamplingInterval`, both sources)
-/

/-- The three globals governed by `setSamplingInterval`. -/
structure SamplingCfg where
  samplingInterval : Nat
  maxSamplesPerDay : Nat
  sampleCount : Nat
deriving DecidableEq

/-- `MINUTES_PER_DAY`. -/
def minutesPerDay : Nat := 1440

/-- `setSamplingInterval(interval)`: accepts 1–60 minutes, recomputes
`maxSamplesPerDay = 1440 / interval` and resets the per-day counter;
out-of-range intervals change nothing. -/
def setSamplingInterval (interval : Nat) (cfg : SamplingCfg) : SamplingCfg :=
  if 1 ≤ interval && interval ≤ 60 then
    { samplingInterval := interval
      maxSamplesPerDay := minutesPerDay / interval
      sampleCount := 0 }
  else cfg

/-!
## Alarm scheduling (`setupNextAlarm`, part_000 first variant and part_001)
-/

/-- Result of the next-alarm computation: the HH:MM the alarm is set to
and whether the day-rollover branch (which runs `cleanupOldFiles`) was
taken. -/
structure AlarmCalc where
  hour : Nat
  minute : Nat
  dayCarry : Bool
deriving DecidableEq

/-- The arithmetic of `setupNextAlarm`: minute `(m + interval) % 60`,
hour carry `(h + 1) % 24` when the minute wrapped, day carry when the
hour wrapped. -/
def calcNextAlarm (h m interval : Nat) : AlarmCalc :=
  let am := (m + interval) % 60
  if am < m then
    let ah := (h + 1) % 24
    { hour := ah, minute := am, dayCarry := ah < h }
  else
    { hour := h, minute := am, dayCarry := false }

/-- Observable actions of one scheduler step, in program order. -/
inductive LogEvent
  | persistLine (filename : Str)
  | cleanup
  | alarmSet (hour minute : Nat)
deriving DecidableEq

/-- The events of one `setupNextAlarm` call: on day carry it runs
`cleanupOldFiles` first, then programs the alarm. -/
def setupNextAlarmEvents (now : DateTime) (interval : Nat) : List LogEvent :=
  let c := calcNextAlarm now.hour now.minute interval
  (if c.dayCarry then [LogEvent.cleanup] else []) ++ [LogEvent.alarmSet c.hour c.minute]

theorem alarmSet_mem_setupNextAlarmEvents (now : DateTime) (interval : Nat) :
    LogEvent.alarmSet (calcNextAlarm now.hour now.minute interval).hour
      (calcNextAlarm now.hour now.minute interval).minute ∈
      setupNextAlarmEvents now interval := by
  simp [setupNextAlarmEvents]

theorem persist_not_mem_setupNextAlarmEvents (now : DateTime) (interval : Nat)
    (f : Str) : LogEvent.persistLine f ∉ setupNextAlarmEvents now interval := by
  simp only [setupNextAlarmEvents]
  by_cases h : (calcNextAlarm now.hour now.minute interval).dayCarry <;> simp [h]

/-!
## File naming and retention (part_001 `cleanupOldFiles`, `scanFiles`)
-/

/-- `%02d` formatting of a value below 100. -/
def pad2 (n : Nat) : Str := [48 + n / 10, 48 + n % 10]

/-- `sprintf(currentFilename, "TMP_%02d%02d.CSV", month, day)`:
the bytes of `TMP_` then the padded month and day then `.CSV`. -/
def logName (month day : Nat) : Str :=
  [84, 77, 80, 95] ++ pad2 month ++ pad2 day ++ [46, 67, 83, 86]

/-- The file filter used by `cleanupOldFiles` and `scanFiles`:
`strncmp(name, "TMP_", 4) == 0 && strlen(name) == 12 &&
strcmp(name + 8, ".CSV") == 0`. -/
def isLogName (s : Str) : Bool :=
  s.take 4 == [84, 77, 80, 95] && s.length == 12 && s.drop 8 == [46, 67, 83, 86]

/-- `MAX_FILES` (capacity of the `fileNames` array of part_001). -/
def maxFilesC : Nat := 50

/-- `scanFiles`: collects the first `MAX_FILES` directory entries matching
the naming pattern, in directory order. -/
def scanFiles (listing : List Str) : List Str :=
  (listing.filter (fun n => isLogName n)).take maxFilesC

/-- `MAX_DAYS`: the retention horizon, and — in the same constant — the
capacity of the local `char fileNames[MAX_DAYS][16]` array that
`cleanupOldFiles` collects matching names into. -/
def maxDaysC : Nat := 360

/-- The array slots written by the enumeration loop of `cleanupOldFiles`:
the k-th matching directory entry is copied to `fileNames[k]`.  Unlike
`scanFiles`, the loop has **no** capacity check, so every slot index from
0 to count-1 is written even past the `MAX_DAYS`-slot array. -/
def cleanupStoreIndices (entries : List Str) : List Nat :=
  List.range (entries.filter (fun n => isLogName n)).length

/-- `cleanupOldFiles(…)` at list level: filter the matching names; when
more than `maxDays` remain, bubble-sort them and delete the first
`count - maxDays` of the sorted array.  Result: (deleted names,
surviving matching names).  This list-level reading is faithful to the C
source only while the matching count fits the fixed
`fileNames[MAX_DAYS]` array: the collection loop has no capacity check,
so a larger count first writes past the array (see `claim_C4`). -/
def cleanupOldFiles (entries : List Str) (maxDays : Nat) : List Str × List Str :=
  let names := entries.filter (fun n => isLogName n)
  if maxDays < names.length then
    let sorted := bubbleSort names
    (sorted.take (names.length - maxDays), sorted.drop (names.length - maxDays))
  else ([], names)

/-- Days per month of a 366-day (leap) year. -/
def daysInMonthLeap : Nat → Nat
  | 1 => 31 | 2 => 29 | 3 => 31 | 4 => 30 | 5 => 31 | 6 => 30
  | 7 => 31 | 8 => 31 | 9 => 30 | 10 => 31 | 11 => 30 | 12 => 31
  | _ => 0

/-- The 366 log-file names of a full leap year, in date order. -/
def leapNames : List Str :=
  (List.range' 1 12).flatMap fun m =>
    (List.range' 1 (daysInMonthLeap m)).map fun d => logName m d

/-- Executable check that adjacent names are in `strcmp` order. -/
def chainLeB : List Str → Bool
  | [] => true
  | [_] => true
  | a :: b :: rest => (decide (strcmp a b ≤ 0)) && chainLeB (b :: rest)

theorem pairwise_of_chainLeB : ∀ l : List Str, chainLeB l = true → l.Pairwise Rle := by
  intro l
  induction l with
  | nil => intro _; exact List.Pairwise.nil
  | cons a rest ih =>
    intro h
    cases rest with
    | nil => exact List.pairwise_singleton _ _
    | cons b rest' =>
      simp only [chainLeB, Bool.and_eq_true, decide_eq_true_eq] at h
      have hp := ih h.2
      refine List.Pairwise.cons ?_ hp
      intro y hy
      rcases List.mem_cons.mp hy with rfl | hy'
      · exact h.1
      · exact Rle_trans h.1 (List.rel_of_pairwise_cons hp hy')

set_option maxRecDepth 20000 in
theorem leapNames_length : leapNames.length = 366 := by decide

set_option maxRecDepth 20000 in
theorem leapNames_all_match : leapNames.all (fun n => isLogName n) = true := by decide

set_option maxRecDepth 20000 in
theorem leapNames_chainLeB : chainLeB leapNames = true := by decide

theorem leapNames_pairwise : leapNames.Pairwise Rle :=
  pairwise_of_chainLeB leapNames leapNames_chainLeB

theorem leapNames_filter :
    leapNames.filter (fun n => isLogName n) = leapNames :=
  List.filter_eq_self.mpr (fun a ha => by
    exact List.all_eq_true.mp leapNames_all_match a ha)

theorem bubbleSort_leapNames : bubbleSort leapNames = leapNames :=
  bubbleSort_eq_self_of_pairwise leapNames leapNames_pairwise

/-!
## SD-card file store and the measurement cycle

`takeMeasurement0` is the first part_000 variant (STM32RTC), which
returns early when the per-day cap is reached; `takeMeasurement1` is the
part_001 variant, which instead rotates the file and resets the counter.
The SD card is modelled as an association list from file name to the list
of its lines; hardware open/write failures below `sdAvailable` are not
modelled (the claims about them do not depend on such failures).
-/

/-- The SD card: file name ↦ file lines (first line is the header). -/
abbrev SD := List (Str × List Str)

/-- `SD.exists` / `SD.open(FILE_READ)`. -/
def lookupFile (sd : SD) (name : Str) : Option (List Str) :=
  List.lookup name sd

/-- Writing a whole file (create or replace). -/
def writeFile : SD → Str → List Str → SD
  | [], name, lines => [(name, lines)]
  | (n, ls) :: rest, name, lines =>
    if n == name then (n, lines) :: rest else (n, ls) :: writeFile rest name lines

/-- Header row of the four-channel variant (part_001). -/
def header1 : Str := ofStr "Index,DateTime,Value0,Value1,Value2,Value3"

/-- Header row of the part_000 variants. -/
def header0 : Str := ofStr "Index,Timestamp,DateTime,Temperature"

/-- The mutable globals of one firmware variant that the measurement
cycle touches. -/
structure MeasState where
  sdAvailable : Bool
  sampleCount : Nat
  samplingInterval : Nat
  currentFilename : Str
  files : SD
deriving DecidableEq

/-- `updateCurrentFilename()`: rebuild the name from the clock; create the
file with its header (counter 0) when absent, otherwise recover the
counter by counting the lines after the header. -/
def updateCurrentFilename (header : Str) (st : MeasState) (now : DateTime) :
    MeasState :=
  let name := logName now.month now.day
  let st1 := { st with currentFilename := name }
  match lookupFile st1.files name with
  | none =>
    if st1.sdAvailable then
      { st1 with files := writeFile st1.files name [header], sampleCount := 0 }
    else st1
  | some lines =>
    if st1.sdAvailable then { st1 with sampleCount := lines.length - 1 }
    else st1

/-- One record of the part_000 variants:
`index,timestamp,dateTime,temperature` (the temperature is kept as its
printed bytes). -/
structure Rec0 where
  timestampSecs : Nat
  label : Str
  temp : Str
deriving DecidableEq

/-- The CSV line written by the part_000 `takeMeasurement`. -/
def serializeLine0 (idx : Nat) (r : Rec0) : Str :=
  dec idx ++ commaB :: (dec r.timestampSecs ++ commaB :: (r.label ++ commaB :: r.temp))

/-- `takeMeasurement()` of the first part_000 variant: returns without
touching anything when the SD is unavailable **or the per-day cap is
reached**; otherwise rotates on a day change and appends one line. -/
def takeMeasurement0 (st : MeasState) (now : DateTime) (r : Rec0) :
    MeasState × List LogEvent :=
  let maxS := minutesPerDay / st.samplingInterval
  if !st.sdAvailable || decide (maxS ≤ st.sampleCount) then (st, [])
  else
    let newName := logName now.month now.day
    let st1 :=
      if newName ≠ st.currentFilename then
        { (updateCurrentFilename header0 { st with currentFilename := newName } now)
          with sampleCount := 0 }
      else st
    let lines := (lookupFile st1.files st1.currentFilename).getD []
    ({ st1 with
        files := writeFile st1.files st1.currentFilename
          (lines ++ [serializeLine0 st1.sampleCount r])
        sampleCount := st1.sampleCount + 1 },
      [LogEvent.persistLine st1.currentFilename])

/-- `takeMeasurement()` of the part_001 variant: the cap condition joins
the day-change condition, so a reached cap **rotates** the file
(re-resolving it and resetting the counter to 0) and the sample is then
persisted. -/
def takeMeasurement1 (st : MeasState) (now : DateTime) (r : Rec) :
    MeasState × List LogEvent :=
  let maxS := minutesPerDay / st.samplingInterval
  if !st.sdAvailable then (st, [])
  else
    let newName := logName now.month now.day
    let st1 :=
      if newName ≠ st.currentFilename || decide (maxS ≤ st.sampleCount) then
        { (updateCurrentFilename header1 { st with currentFilename := newName } now)
          with sampleCount := 0 }
      else st
    let lines := (lookupFile st1.files st1.currentFilename).getD []
    ({ st1 with
        files := writeFile st1.files st1.currentFilename
          (lines ++ [serializeLine st1.sampleCount r])
        sampleCount := st1.sampleCount + 1 },
      [LogEvent.persistLine st1.currentFilename])

/-- The alarm branch of `loop()` in the first part_000 variant:
`takeMeasurement()` then `setupNextAlarm()`. -/
def loopStep0 (st : MeasState) (now : DateTime) (r : Rec0) :
    MeasState × List LogEvent :=
  let p := takeMeasurement0 st now r
  (p.1, p.2 ++ setupNextAlarmEvents now p.1.samplingInterval)

/-- The alarm branch of `loop()` in the part_001 variant. -/
def loopStep1 (st : MeasState) (now : DateTime) (r : Rec) :
    MeasState × List LogEvent :=
  let p := takeMeasurement1 st now r
  (p.1, p.2 ++ setupNextAlarmEvents now p.1.samplingInterval)

/-!
## Appending and streaming records (round trip)
-/

/-- The per-file view of the active day file: its lines and the in-memory
counter used for the next index. -/
structure FileState where
  lines : List Str
  count : Nat
deriving DecidableEq

/-- A freshly created day file: header row only, counter 0. -/
def freshFile : FileState := ⟨[header1], 0⟩

/-- The SD-write portion of the part_001 `takeMeasurement` on the plain
path (active file resolved, cap not reached): append one CSV line under
the current counter and advance the counter. -/
def appendRecord (fs : FileState) (r : Rec) : FileState :=
  ⟨fs.lines ++ [serializeLine fs.count r], fs.count + 1⟩

/-- Appending a sequence of records. -/
def appendAll (fs : FileState) (rs : List Rec) : FileState :=
  rs.foldl appendRecord fs

/-!
## Radio protocol engine (part_001)
-/

/-- Response frames of the part_001 protocol. -/
inductive Frame
  | listStart
  | listEnd
  | fileEntry (fileIndex totalFiles : Nat) (name : Str)
  | data (index : Nat) (r : Rec)
  | rtcAck (key value : Nat)
  | rtcInfo (key value : Nat)
deriving DecidableEq

/-- Radio actions in program order: mode switches and frame writes. -/
inductive RadioEvent
  | stopListening
  | startListening
  | frame (f : Frame)
deriving DecidableEq

/-- The two radio modes of the half-duplex transceiver. -/
inductive RadioMode
  | listening
  | transmitting
deriving DecidableEq

/-- Effect of one radio action on the mode. -/
def applyEvent (m : RadioMode) : RadioEvent → RadioMode
  | RadioEvent.stopListening => RadioMode.transmitting
  | RadioEvent.startListening => RadioMode.listening
  | RadioEvent.frame _ => m

/-- Radio mode after a sequence of actions. -/
def finalMode (m : RadioMode) (evs : List RadioEvent) : RadioMode :=
  evs.foldl applyEvent m

/-- The frames written during a sequence of actions. -/
def framesOf (evs : List RadioEvent) : List Frame :=
  evs.filterMap fun e =>
    match e with
    | RadioEvent.frame f => some f
    | _ => none

/-- The per-file frames of `sendFileList` (`fileIndex` counts from 0,
`totalFiles` is the scanned count). -/
def fileEntryEvents (total : Nat) : Nat → List Str → List RadioEvent
  | _, [] => []
  | i, name :: rest =>
    RadioEvent.frame (Frame.fileEntry i total name) :: fileEntryEvents total (i + 1) rest

/-- `sendFileList()`: switch to TX; with no files, send **only** the end
marker and return to listening; otherwise send the start marker (aborting
to listening when that write fails), one frame per file, the end marker,
and return to listening. -/
def sendFileListEvents (files : List Str) (startOk : Bool) : List RadioEvent :=
  RadioEvent.stopListening ::
  (if files.length == 0 then
    [RadioEvent.frame Frame.listEnd, RadioEvent.startListening]
  else
    RadioEvent.frame Frame.listStart ::
    (if !startOk then [RadioEvent.startListening]
     else fileEntryEvents files.length 0 files ++
       [RadioEvent.frame Frame.listEnd, RadioEvent.startListening]))

/-- The streaming loop of `sendFile`: one data frame per remaining line,
up to `numSamples`; the response index is `startIndex + counter`,
carried here directly as `idx`. -/
def streamLoop (idx : Nat) : Nat → List Str → List RadioEvent
  | 0, _ => []
  | _ + 1, [] => []
  | n + 1, line :: rest =>
    RadioEvent.frame (Frame.data idx (parseRec line)) :: streamLoop (idx + 1) n rest

/-- The `REQUEST_DATA` payload fields of the request frame. -/
structure DataReq where
  startIndex : Nat
  numSamples : Nat
  filename : Str
deriving DecidableEq

/-- `sendFile(request)`: switch to TX; a nonexistent file sends nothing
and reverts to listening; otherwise skip the header and `startIndex`
lines and stream up to `numSamples` parsed records; revert to
listening.  `openOk` models the `SD.open` outcome. -/
def sendFileEvents (sd : SD) (openOk : Bool) (req : DataReq) : List RadioEvent :=
  RadioEvent.stopListening ::
  (match lookupFile sd req.filename with
   | none => [RadioEvent.startListening]
   | some lines =>
     if openOk then
       streamLoop req.startIndex req.numSamples ((lines.drop 1).drop req.startIndex) ++
         [RadioEvent.startListening]
     else [RadioEvent.startListening])

/-- The `MODIFY_RTC` exchange in `waitForCommand`: apply the write, then
acknowledge with 1/0 under the same key. -/
def modifyRTCEvents (dt : DateTime) (key value : Nat) : List RadioEvent :=
  [RadioEvent.stopListening,
   RadioEvent.frame (Frame.rtcAck key (if (modifyRTC key value dt).1 then 1 else 0)),
   RadioEvent.startListening]

/-- `sendRTCInfo(request)`. -/
def sendRTCInfoEvents (dt : DateTime) (key : Nat) : List RadioEvent :=
  [RadioEvent.stopListening,
   RadioEvent.frame (Frame.rtcInfo key (getRTCInfo key dt)),
   RadioEvent.startListening]

/-- An inbound request frame (part_001 `DataRequest`). -/
structure CmdReq where
  command : Nat
  startIndex : Nat
  numSamples : Nat
  filename : Str
  key : Nat
  value : Nat
deriving DecidableEq

/-- Command opcodes dispatched by `waitForCommand` (part_001). -/
def cmdRequestData : Nat := 1
def cmdFileList : Nat := 4
def cmdModifyRTC : Nat := 5
def cmdGetRTCInfo : Nat := 6

/-- The device environment a command executes against. -/
structure Env where
  sd : SD
  clock : DateTime
  listStartOk : Bool
  openOk : Bool

/-- The dispatch of `waitForCommand()` on a received request: `LIST`
rescans then sends the list; `REQUEST_DATA` streams a file; `MODIFY_RTC`
and `GET_RTC_INFO` answer one frame; an unknown opcode does nothing. -/
def waitForCommandEvents (env : Env) (req : CmdReq) : List RadioEvent :=
  if req.command == cmdFileList then
    sendFileListEvents (scanFiles (env.sd.map Prod.fst)) env.listStartOk
  else if req.command == cmdRequestData then
    sendFileEvents env.sd env.openOk
      { startIndex := req.startIndex, numSamples := req.numSamples,
        filename := req.filename }
  else if req.command == cmdModifyRTC then
    modifyRTCEvents env.clock req.key req.value
  else if req.command == cmdGetRTCInfo then
    sendRTCInfoEvents env.clock req.key
  else []

theorem finalMode_append_start (m : RadioMode) (evs : List RadioEvent) :
    finalMode m (evs ++ [RadioEvent.startListening]) = RadioMode.listening := by
  simp [finalMode, List.foldl_append, applyEvent]

theorem finalMode_sendFileList (files : List Str) (ok : Bool) (m : RadioMode) :
    finalMode m (sendFileListEvents files ok) = RadioMode.listening := by
  simp only [sendFileListEvents]
  by_cases h : files.length == 0
  · simp [h, finalMode, applyEvent]
  · by_cases h2 : ok <;>
      simp [h, h2, finalMode, List.foldl_append, applyEvent]

theorem finalMode_sendFile (sd : SD) (ok : Bool) (req : DataReq) (m : RadioMode) :
    finalMode m (sendFileEvents sd ok req) = RadioMode.listening := by
  simp only [sendFileEvents]
  cases hl : lookupFile sd req.filename with
  | none => simp [finalMode, applyEvent]
  | some lines =>
    by_cases h2 : ok <;>
      simp [h2, finalMode, List.foldl_append, applyEvent]

theorem finalMode_waitForCommand (env : Env) (req : CmdReq) (m : RadioMode)
    (hm : m = RadioMode.listening) :
    finalMode m (waitForCommandEvents env req) = RadioMode.listening := by
  subst hm
  simp only [waitForCommandEvents]
  split_ifs with h1 h2 h3 h4
  · exact finalMode_sendFileList _ _ _
  · exact finalMode_sendFile _ _ _ _
  · simp [modifyRTCEvents, finalMode, applyEvent]
  · simp [sendRTCInfoEvents, finalMode, applyEvent]
  · simp [finalMode]

/-!
## Derived facts about appending and streaming
-/

/-- The CSV lines produced for records `rs` appended from counter `idx`. -/
def serLines (idx : Nat) : List Rec → List Str
  | [] => []
  | r :: rs => serializeLine idx r :: serLines (idx + 1) rs

/-- The data frames expected for records `rs` streamed from index `idx`. -/
def expectedFrames (idx : Nat) : List Rec → List Frame
  | [] => []
  | r :: rs => Frame.data idx r :: expectedFrames (idx + 1) rs

theorem appendAll_lines (fs : FileState) (rs : List Rec) :
    (appendAll fs rs).lines = fs.lines ++ serLines fs.count rs ∧
    (appendAll fs rs).count = fs.count + rs.length := by
  induction rs generalizing fs with
  | nil => simp [appendAll, serLines]
  | cons r rs ih =>
    have h2 := ih ⟨fs.lines ++ [serializeLine fs.count r], fs.count + 1⟩
    simp only [appendAll, List.foldl_cons, appendRecord] at h2 ⊢
    constructor
    · rw [h2.1]
      simp [serLines, List.append_assoc]
    · rw [h2.2]
      simp [serLines, List.length_cons]
      omega

/-- A record survives CSV serialization and parsing when its label is
comma-free and its values fit `uint16_t`. -/
theorem parseRec_roundtrip (idx : Nat) (r : Rec) (hB : commaB ∉ r.label)
    (h0 : r.v0 < 65536) (h1 : r.v1 < 65536) (h2 : r.v2 < 65536) (h3 : r.v3 < 65536) :
    parseRec (serializeLine idx r) = r := by
  rw [parseRec_serializeLine idx r hB]
  cases r with
  | mk lab a b c d =>
    simp_all [Rec.mk.injEq, Nat.mod_eq_of_lt]

/-- Streaming exactly the lines written for `rs` yields one data frame per
record, in order, with indices counted from the start index. -/
theorem streamLoop_serLines (idx : Nat) (rs : List Rec)
    (h : ∀ r ∈ rs, commaB ∉ r.label ∧ r.v0 < 65536 ∧ r.v1 < 65536 ∧
      r.v2 < 65536 ∧ r.v3 < 65536) :
    streamLoop idx rs.length (serLines idx rs) =
      (expectedFrames idx rs).map RadioEvent.frame := by
  induction rs generalizing idx with
  | nil => simp [serLines, expectedFrames, streamLoop]
  | cons r rs ih =>
    obtain ⟨hB, h0, h1, h2, h3⟩ := h r (by simp)
    simp only [serLines, expectedFrames, List.length_cons, streamLoop, List.map_cons]
    rw [parseRec_roundtrip idx r hB h0 h1 h2 h3]
    rw [ih (idx + 1) (fun r hr => h r (by simp [hr]))]

theorem framesOf_map_frame_append_start (fl : List Frame) :
    framesOf ((fl.map RadioEvent.frame) ++ [RadioEvent.startListening]) = fl := by
  induction fl with
  | nil => rfl
  | cons f fl ih =>
    simpa [framesOf, List.filterMap_cons] using ih

/-- Each frame streamed by `streamLoop` is a data frame whose index is the
start index plus the frame's position. -/
theorem streamLoop_index (idx : Nat) :
    ∀ (n : Nat) (ls : List Str) (k : Nat) (f : Frame),
      (framesOf (streamLoop idx n ls))[k]? = some f →
      ∃ r, f = Frame.data (idx + k) r := by
  intro n
  induction n generalizing idx with
  | zero =>
    intro ls k f hf
    simp [streamLoop, framesOf] at hf
  | succ n ih =>
    intro ls k f hf
    cases ls with
    | nil => simp [streamLoop, framesOf] at hf
    | cons line rest =>
      simp only [streamLoop, framesOf, List.filterMap_cons] at hf
      cases k with
      | zero =>
        refine ⟨parseRec line, ?_⟩
        simp at hf
        rw [← hf, Nat.add_zero]
      | succ k =>
        simp only [List.getElem?_cons_succ] at hf
        obtain ⟨r, hr⟩ := ih (idx + 1) rest k f hf
        exact ⟨r, by rw [hr]; congr 1; omega⟩

/-!
## Claims
-/

/-- C1, counterexample: a `LIST_FILES` exchange with zero matching files
emits exactly one frame — the end marker alone — not the claimed
start-marker-then-end-marker pair. -/
theorem claim_C1_cex :
    framesOf (waitForCommandEvents ⟨[], ⟨2025, 1, 1, 0, 0, 0⟩, true, true⟩
      ⟨cmdFileList, 0, 0, [], 0, 0⟩) = [Frame.listEnd] ∧
    ¬ framesOf (waitForCommandEvents ⟨[], ⟨2025, 1, 1, 0, 0, 0⟩, true, true⟩
      ⟨cmdFileList, 0, 0, [], 0, 0⟩) = [Frame.listStart, Frame.listEnd] :=
  ⟨by decide, by decide⟩

/-- C1 (amended): for a `LIST_FILES` request when zero files match the
naming pattern, the device emits exactly one frame — the end marker — no
per-file entry frames and no start marker, then returns to listening. -/
theorem claim_C1 (env : Env) (req : CmdReq)
    (hreq : req.command = cmdFileList)
    (hempty : (env.sd.map Prod.fst).filter (fun n => isLogName n) = []) :
    framesOf (waitForCommandEvents env req) = [Frame.listEnd] ∧
    finalMode RadioMode.listening (waitForCommandEvents env req) =
      RadioMode.listening := by
  have hscan : scanFiles (env.sd.map Prod.fst) = [] := by
    simp [scanFiles, hempty]
  have hw : waitForCommandEvents env req =
      sendFileListEvents [] env.listStartOk := by
    simp [waitForCommandEvents, hreq, hscan]
  rw [hw]
  constructor
  · simp [sendFileListEvents, framesOf]
  · simp [sendFileListEvents, finalMode, applyEvent]

/-- Witness for C1 on a card holding only a non-matching file. -/
theorem claim_C1_witness :
    framesOf (waitForCommandEvents
      ⟨[(ofStr "OTHER.TXT", [])], ⟨2025, 1, 1, 0, 0, 0⟩, false, true⟩
      ⟨cmdFileList, 0, 0, [], 0, 0⟩) = [Frame.listEnd] ∧
    finalMode RadioMode.listening (waitForCommandEvents
      ⟨[(ofStr "OTHER.TXT", [])], ⟨2025, 1, 1, 0, 0, 0⟩, false, true⟩
      ⟨cmdFileList, 0, 0, [], 0, 0⟩) = RadioMode.listening :=
  claim_C1 _ _ rfl (by decide)

/-- C2 (amended, part_000 variant): in a measurement cycle whose per-day
counter has reached the cap, the part_000 scheduler appends nothing and
changes no state, and the loop still reprograms the next alarm. -/
theorem claim_C2 (st : MeasState) (now : DateTime) (r : Rec0)
    (hcap : minutesPerDay / st.samplingInterval ≤ st.sampleCount)
    (hday : logName now.month now.day = st.currentFilename) :
    (loopStep0 st now r).1 = st ∧
    (loopStep0 st now r).2 = setupNextAlarmEvents now st.samplingInterval ∧
    (∀ f, LogEvent.persistLine f ∉ (loopStep0 st now r).2) ∧
    LogEvent.alarmSet (calcNextAlarm now.hour now.minute st.samplingInterval).hour
      (calcNextAlarm now.hour now.minute st.samplingInterval).minute ∈
      (loopStep0 st now r).2 := by
  have htm : takeMeasurement0 st now r = (st, []) := by
    simp only [takeMeasurement0]
    rw [if_pos]
    simp [hcap]
  have hl : loopStep0 st now r = (st, setupNextAlarmEvents now st.samplingInterval) := by
    simp [loopStep0, htm]
  refine ⟨by rw [hl], by rw [hl], ?_, ?_⟩
  · intro f
    rw [hl]
    exact persist_not_mem_setupNextAlarmEvents now st.samplingInterval f
  · rw [hl]
    exact alarmSet_mem_setupNextAlarmEvents now st.samplingInterval

/-- Witness for C2 at the cap (interval 10, counter 144). -/
theorem claim_C2_witness :
    (loopStep0 ⟨true, 144, 10, logName 1 1, []⟩ ⟨2025, 1, 1, 8, 0, 0⟩ ⟨0, [], []⟩).1 =
      ⟨true, 144, 10, logName 1 1, []⟩ ∧
    (loopStep0 ⟨true, 144, 10, logName 1 1, []⟩ ⟨2025, 1, 1, 8, 0, 0⟩ ⟨0, [], []⟩).2 =
      setupNextAlarmEvents ⟨2025, 1, 1, 8, 0, 0⟩ 10 ∧
    (∀ f, LogEvent.persistLine f ∉
      (loopStep0 ⟨true, 144, 10, logName 1 1, []⟩ ⟨2025, 1, 1, 8, 0, 0⟩ ⟨0, [], []⟩).2) ∧
    LogEvent.alarmSet (calcNextAlarm 8 0 10).hour (calcNextAlarm 8 0 10).minute ∈
      (loopStep0 ⟨true, 144, 10, logName 1 1, []⟩ ⟨2025, 1, 1, 8, 0, 0⟩ ⟨0, [], []⟩).2 :=
  claim_C2 ⟨true, 144, 10, logName 1 1, []⟩ ⟨2025, 1, 1, 8, 0, 0⟩ ⟨0, [], []⟩
    (by decide) (by decide)

/-- C2, counterexample (part_001 variant): at the cap with the day
unchanged, `takeMeasurement` re-resolves the day file, resets the counter
and **does** persist the sample — persistence is not skipped and the
counter changes. -/
theorem claim_C2_cex :
    minutesPerDay / 60 ≤ 24 ∧
    (takeMeasurement1 ⟨true, 24, 60, logName 3 11,
        [(logName 3 11, header1 :: List.replicate 24 [120])]⟩
      ⟨2025, 3, 11, 12, 0, 0⟩ ⟨[120], 1, 2, 3, 4⟩).2 =
      [LogEvent.persistLine (logName 3 11)] ∧
    (takeMeasurement1 ⟨true, 24, 60, logName 3 11,
        [(logName 3 11, header1 :: List.replicate 24 [120])]⟩
      ⟨2025, 3, 11, 12, 0, 0⟩ ⟨[120], 1, 2, 3, 4⟩).1.sampleCount = 1 ∧
    (1 : Nat) ≠ 24 :=
  ⟨by decide, by decide, by decide, by decide⟩

/-- C3: after every `waitForCommand` dispatch — every opcode, every
success and failure path (send error, missing file, empty list, unknown
command) — the radio is back in listening mode. -/
theorem claim_C3 (env : Env) (req : CmdReq) :
    finalMode RadioMode.listening (waitForCommandEvents env req) =
      RadioMode.listening :=
  finalMode_waitForCommand env req RadioMode.listening rfl

/-- C4 (code bug): at the claim's own scenario — the 366 dated names of a
leap year with `MAX_DAYS = 360` — the enumeration loop of
`cleanupOldFiles` finds 366 matching names and writes them to
`fileNames[0] … fileNames[365]`, so slots 360…365 land past the end of
the 360-slot array before any sort or deletion happens; and within the
array capacity (count ≤ `MAX_DAYS`) the deleting branch
(`fileCount > MAX_DAYS`) is unreachable, so no in-bounds execution of
`cleanupOldFiles` ever deletes a file.  The retention behavior the claim
describes is therefore never exhibited by the program as written. -/
theorem claim_C4 :
    ((leapNames.filter (fun n => isLogName n)).length = 366 ∧
      maxDaysC < (leapNames.filter (fun n => isLogName n)).length ∧
      maxDaysC ∈ cleanupStoreIndices leapNames ∧
      365 ∈ cleanupStoreIndices leapNames) ∧
    ∀ entries : List Str,
      (entries.filter (fun n => isLogName n)).length ≤ maxDaysC →
      cleanupOldFiles entries maxDaysC =
        ([], entries.filter (fun n => isLogName n)) := by
  constructor
  · have hlen : (leapNames.filter (fun n => isLogName n)).length = 366 := by
      rw [leapNames_filter, leapNames_length]
    refine ⟨hlen, ?_, ?_, ?_⟩
    · rw [hlen]
      simp [maxDaysC]
    · simp only [cleanupStoreIndices, hlen, List.mem_range, maxDaysC]
      omega
    · simp only [cleanupStoreIndices, hlen, List.mem_range]
      omega
  · intro entries h
    simp only [cleanupOldFiles]
    rw [if_neg (by omega)]

/-- Witness for C4's in-capacity part: two matching files, horizon 360,
nothing deleted. -/
theorem claim_C4_witness :
    cleanupOldFiles [logName 1 2, logName 1 1] maxDaysC =
      ([], ([logName 1 2, logName 1 1]).filter (fun n => isLogName n)) :=
  claim_C4.2 [logName 1 2, logName 1 1] (by decide)

/-- C5: an alarm at 23:55 with a 10-minute interval programs the next
alarm at 00:05 with the day-carry branch taken; that branch runs
`cleanupOldFiles` inside `setupNextAlarm`, before the call returns, so in
the 23:55 cycle the trace is: persist (old day), cleanup, alarm write —
retention precedes any new-day persistence; and in general the alarm
minute is `(m + interval) % 60`. -/
theorem claim_C5 :
    calcNextAlarm 23 55 10 = ⟨0, 5, true⟩ ∧
    setupNextAlarmEvents ⟨2025, 3, 11, 23, 55, 0⟩ 10 =
      [LogEvent.cleanup, LogEvent.alarmSet 0 5] ∧
    (loopStep1 ⟨true, 100, 10, logName 3 11, [(logName 3 11, [header1])]⟩
        ⟨2025, 3, 11, 23, 55, 0⟩ ⟨[120], 1, 2, 3, 4⟩).2 =
      [LogEvent.persistLine (logName 3 11), LogEvent.cleanup,
        LogEvent.alarmSet 0 5] ∧
    ∀ h m i, (calcNextAlarm h m i).minute = (m + i) % 60 := by
  refine ⟨by decide, by decide, by decide, ?_⟩
  intro h m i
  simp only [calcNextAlarm]
  split_ifs <;> rfl

/-- C6: `MODIFY_RTC` with key=day, value=30 in February of the non-leap
year 2025 is rejected (the maximum valid day is 28) and leaves the clock
unchanged; in general every field write failing its range check reports
failure and commits no change. -/
theorem claim_C6 :
    maxDaysFor 2 2025 = 28 ∧
    modifyRTC keyDay 30 ⟨2025, 2, 15, 12, 0, 0⟩ =
      (false, ⟨2025, 2, 15, 12, 0, 0⟩) ∧
    ∀ key value dt, rangeCheck key value dt = false →
      modifyRTC key value dt = (false, dt) :=
  ⟨by decide, by decide, modifyRTC_invalid⟩

/-- Witness for C6 at key=day, value=61. -/
theorem claim_C6_witness :
    modifyRTC keyDay 61 ⟨2025, 5, 1, 0, 0, 0⟩ = (false, ⟨2025, 5, 1, 0, 0, 0⟩) :=
  claim_C6.2.2 keyDay 61 ⟨2025, 5, 1, 0, 0, 0⟩ (by decide)

/-- C7: appending N records to a fresh day file and then streaming that
file with startIndex 0 and count N yields exactly the N records in their
original append order with response indices 0 … N-1. -/
theorem claim_C7 (name : Str) (rs : List Rec)
    (h : ∀ r ∈ rs, commaB ∉ r.label ∧ r.v0 < 65536 ∧ r.v1 < 65536 ∧
      r.v2 < 65536 ∧ r.v3 < 65536) :
    framesOf (sendFileEvents [(name, (appendAll freshFile rs).lines)] true
      ⟨0, rs.length, name⟩) = expectedFrames 0 rs := by
  have hlines : (appendAll freshFile rs).lines = header1 :: serLines 0 rs := by
    have := (appendAll_lines freshFile rs).1
    simpa [freshFile] using this
  rw [hlines]
  have hlook2 : lookupFile [(name, header1 :: serLines 0 rs)] name =
      some (header1 :: serLines 0 rs) := by
    simp [lookupFile, List.lookup]
  have h1 : sendFileEvents [(name, header1 :: serLines 0 rs)] true
      ⟨0, rs.length, name⟩ =
      RadioEvent.stopListening ::
        (streamLoop 0 rs.length (serLines 0 rs) ++ [RadioEvent.startListening]) := by
    simp [sendFileEvents, hlook2]
  rw [h1, streamLoop_serLines 0 rs h]
  exact framesOf_map_frame_append_start _

/-- Witness for C7 with two concrete records. -/
theorem claim_C7_witness :
    framesOf (sendFileEvents [(logName 1 1, (appendAll freshFile
        [⟨[116], 1, 2, 3, 4⟩, ⟨[117], 5, 6, 7, 8⟩]).lines)] true
      ⟨0, 2, logName 1 1⟩) =
      expectedFrames 0 [⟨[116], 1, 2, 3, 4⟩, ⟨[117], 5, 6, 7, 8⟩] :=
  claim_C7 (logName 1 1) [⟨[116], 1, 2, 3, 4⟩, ⟨[117], 5, 6, 7, 8⟩] (by decide)

/-- C8: a `REQUEST_DATA` request naming a file that is not on the card
sends zero response frames and the radio ends in listening mode. -/
theorem claim_C8 (env : Env) (req : CmdReq)
    (hreq : req.command = cmdRequestData)
    (hmiss : lookupFile env.sd req.filename = none) :
    framesOf (waitForCommandEvents env req) = [] ∧
    finalMode RadioMode.listening (waitForCommandEvents env req) =
      RadioMode.listening := by
  have hw : waitForCommandEvents env req =
      sendFileEvents env.sd env.openOk
        ⟨req.startIndex, req.numSamples, req.filename⟩ := by
    simp [waitForCommandEvents, hreq, cmdRequestData, cmdFileList]
  rw [hw]
  constructor
  · simp [sendFileEvents, hmiss, framesOf]
  · simp [sendFileEvents, hmiss, finalMode, applyEvent]

/-- Witness for C8: request for a missing file. -/
theorem claim_C8_witness :
    framesOf (waitForCommandEvents
      ⟨[(logName 1 2, [header1])], ⟨2025, 1, 1, 0, 0, 0⟩, true, true⟩
      ⟨cmdRequestData, 0, 5, logName 3 4, 0, 0⟩) = [] ∧
    finalMode RadioMode.listening (waitForCommandEvents
      ⟨[(logName 1 2, [header1])], ⟨2025, 1, 1, 0, 0, 0⟩, true, true⟩
      ⟨cmdRequestData, 0, 5, logName 3 4, 0, 0⟩) = RadioMode.listening :=
  claim_C8 _ _ rfl (by decide)

/-- C9: `setSamplingInterval` accepts every interval 1–60, setting the
derived samples-per-day to `1440 / i` and resetting the counter to 0;
every interval outside 1–60 changes nothing. -/
theorem claim_C9 :
    (∀ i cfg, 1 ≤ i → i ≤ 60 →
      setSamplingInterval i cfg =
        { samplingInterval := i, maxSamplesPerDay := 1440 / i, sampleCount := 0 }) ∧
    (∀ i cfg, i < 1 ∨ 60 < i → setSamplingInterval i cfg = cfg) := by
  constructor
  · intro i cfg h1 h2
    simp only [setSamplingInterval, minutesPerDay]
    rw [if_pos]
    simp [h1, h2]
  · intro i cfg h
    simp only [setSamplingInterval]
    rw [if_neg]
    simp only [Bool.and_eq_true, decide_eq_true_eq, not_and]
    omega

/-- Witness for C9 at intervals 10 (accepted) and 0 (rejected). -/
theorem claim_C9_witness :
    setSamplingInterval 10 ⟨5, 288, 42⟩ = ⟨10, 144, 0⟩ ∧
    setSamplingInterval 0 ⟨5, 288, 42⟩ = ⟨5, 288, 42⟩ :=
  ⟨claim_C9.1 10 ⟨5, 288, 42⟩ (by decide) (by decide),
   claim_C9.2 0 ⟨5, 288, 42⟩ (Or.inl (by decide))⟩

/-- C10: the k-th data frame of a `REQUEST_DATA` exchange carries index
`startIndex + k`, computed from the request and position alone for any
file content; concretely, a file line whose stored index field is 99 is
streamed with the position-derived index 0. -/
theorem claim_C10 :
    (∀ (sd : SD) (ok : Bool) (req : DataReq) (k : Nat) (f : Frame),
      (framesOf (sendFileEvents sd ok req))[k]? = some f →
      ∃ r, f = Frame.data (req.startIndex + k) r) ∧
    framesOf (sendFileEvents
      [(logName 1 1, [header1, serializeLine 99 ⟨[116], 1, 2, 3, 4⟩])] true
      ⟨0, 1, logName 1 1⟩) =
      [Frame.data 0 ⟨[116], 1, 2, 3, 4⟩] := by
  constructor
  · intro sd ok req k f hf
    simp only [sendFileEvents] at hf
    cases hl : lookupFile sd req.filename with
    | none =>
      rw [hl] at hf
      simp [framesOf] at hf
    | some lines =>
      rw [hl] at hf
      cases ok with
      | false =>
        simp [framesOf] at hf
      | true =>
        simp only [eq_self_iff_true, if_true] at hf
        have heq : framesOf (RadioEvent.stopListening ::
            (streamLoop req.startIndex req.numSamples
                ((lines.drop 1).drop req.startIndex) ++
              [RadioEvent.startListening])) =
            framesOf (streamLoop req.startIndex req.numSamples
              ((lines.drop 1).drop req.startIndex)) := by
          simp [framesOf, List.filterMap_append, List.filterMap_cons]
        rw [heq] at hf
        exact streamLoop_index _ _ _ _ _ hf
  · decide

/-- Witness for C10 on the stored-index-99 file. -/
theorem claim_C10_witness :
    ∃ r, Frame.data 0 ⟨[116], 1, 2, 3, 4⟩ = Frame.data (0 + 0) r :=
  claim_C10.1 [(logName 1 1, [header1, serializeLine 99 ⟨[116], 1, 2, 3, 4⟩])]
    true ⟨0, 1, logName 1 1⟩ 0 (Frame.data 0 ⟨[116], 1, 2, 3, 4⟩) (by decide)

end STM32Logger
